import Mathlib

/-!
# Verification of the NBT editor core (src/main.py)

Shallow embedding of the tag-tree data model and the edit operations of the
Minecraft NBT editor.  Pure functions of the source are translated to Lean
functions; tkinter mutations are translated to explicit state passing
(an operation takes the container and returns the optional error that the
GUI would surface together with the resulting container).

Conventions of the embedding:
* Python `str` values are manipulated as `List Char`; top-level entry
  points take `String` and convert via `.data`.
* Python's unbounded `int` is `Int`.
* nbtlib numeric tag constructors (`Byte`, `Short`, `Int`, `Long`) validate
  that the value lies in the signed range of the tag's width and raise
  `OutOfRange` (a `ValueError` subclass) otherwise; this documented nbtlib
  behaviour is embedded in `mkByte`/`mkShort`/`mkIntTag`/`mkLongTag`.
* Python floats are modelled by `PyFloat`: the exact rational value of the
  accepted literal (rounding to IEEE-754 binary is not modelled), plus
  infinities and NaN.
-/

namespace NBTEdit

/-- The ASCII whitespace characters stripped by Python's `str.strip()`
(Unicode whitespace is not modelled; no input in this development uses it). -/
def pySpace (c : Char) : Bool :=
  c = ' ' ∨ c = '\t' ∨ c = '\n' ∨ c = '\r' ∨ c = '\x0b' ∨ c = '\x0c'

/-- Python `str.strip()` on a character list: drop whitespace at both ends. -/
def pyStrip (cs : List Char) : List Char :=
  ((cs.dropWhile pySpace).reverse.dropWhile pySpace).reverse

/-- Python `str.strip()` as a `String → String` function. -/
def pyStripS (s : String) : String :=
  ⟨pyStrip s.data⟩

/-- Python `str.strip("[]")`-style stripping: drop every leading and trailing
`'['` or `']'` character (note: *all* of them, not one matched pair). -/
def stripBrackets (cs : List Char) : List Char :=
  let isBr : Char → Bool := fun c => c = '[' ∨ c = ']'
  ((cs.dropWhile isBr).reverse.dropWhile isBr).reverse

/-- Split a character list at every comma, like Python `str.split(",")`
(an empty input yields one empty segment). -/
def splitCommas (cs : List Char) : List (List Char) :=
  match cs with
  | [] => [[]]
  | c :: rest =>
    let tail := splitCommas rest
    if c = ',' then [] :: tail
    else
      match tail with
      | [] => [[c]]
      | seg :: segs => (c :: seg) :: segs

/-- Value of a digit character in the given base, as accepted by Python
`int(s, base)`. -/
def digitVal (base : Nat) (c : Char) : Option Nat :=
  let v : Option Nat :=
    if '0' ≤ c ∧ c ≤ '9' then some (c.toNat - '0'.toNat)
    else if 'a' ≤ c ∧ c ≤ 'z' then some (c.toNat - 'a'.toNat + 10)
    else if 'A' ≤ c ∧ c ≤ 'Z' then some (c.toNat - 'A'.toNat + 10)
    else none
  match v with
  | some d => if d < base then some d else none
  | none => none

/-- Digit-sequence parser for Python integer literals: digits of `base` with
single `'_'` separators allowed only between digits.  `lastWasDigit` tracks
whether the previous character was a digit; the sequence must end in a digit. -/
def parseDigitsAux (base : Nat) : List Char → Nat → Bool → Option Nat
  | [], acc, lastWasDigit => if lastWasDigit then some acc else none
  | c :: cs, acc, lastWasDigit =>
    if c = '_' then
      if lastWasDigit then parseDigitsAux base cs acc false else none
    else
      match digitVal base c with
      | some d => parseDigitsAux base cs (acc * base + d) true
      | none => none

/-- Parse a non-empty digit sequence (underscore-grouped) in `base`. -/
def parseDigits (base : Nat) (cs : List Char) : Option Nat :=
  parseDigitsAux base cs 0 false

/-- After a base prefix Python allows one `'_'` before the first digit
(e.g. `0x_ff`). -/
def dropPrefixUnderscore : List Char → List Char
  | '_' :: rest => rest
  | cs => cs

/-- Python `int(s, 0)` on a stripped character list: optional sign, then a
`0x`/`0o`/`0b` prefixed literal or a decimal literal; with base 0 a decimal
literal with a leading zero is only legal when its value is zero. -/
def pyIntCore (cs : List Char) : Option Int :=
  let signed : Bool × List Char :=
    match cs with
    | '-' :: rest => (true, rest)
    | '+' :: rest => (false, rest)
    | rest => (false, rest)
  let neg := signed.1
  let body := signed.2
  let nat? : Option Nat :=
    match body with
    | '0' :: x :: rest =>
      if x = 'x' ∨ x = 'X' then parseDigits 16 (dropPrefixUnderscore rest)
      else if x = 'o' ∨ x = 'O' then parseDigits 8 (dropPrefixUnderscore rest)
      else if x = 'b' ∨ x = 'B' then parseDigits 2 (dropPrefixUnderscore rest)
      else
        match parseDigits 10 body with
        | some n => if n = 0 then some 0 else none
        | none => none
    | _ => parseDigits 10 body
  nat?.map fun n => if neg then -(n : Int) else (n : Int)

/-- Python `int(s, 0)`: strip whitespace, then parse per `pyIntCore`;
`none` models the `ValueError` raised on unparseable input. -/
def pyInt (s : String) : Option Int :=
  pyIntCore (pyStrip s.data)

/-- A Python float value: the exact rational value of an accepted decimal
literal (IEEE-754 rounding is not modelled), or an infinity, or NaN. -/
inductive PyFloat where
  | finite (q : ℚ)
  | inf (neg : Bool)
  | nan
deriving DecidableEq, Repr

/-- Parse a digit run for float literals, returning value and digit count
(underscores allowed between digits, as in Python). -/
def parseFracDigitsAux : List Char → Nat → Nat → Bool → Option (Nat × Nat)
  | [], acc, count, lastWasDigit =>
    if lastWasDigit then some (acc, count) else none
  | c :: cs, acc, count, lastWasDigit =>
    if c = '_' then
      if lastWasDigit then parseFracDigitsAux cs acc count false else none
    else
      match digitVal 10 c with
      | some d => parseFracDigitsAux cs (acc * 10 + d) (count + 1) true
      | none => none

/-- Split a float literal body at the first `'.'` (if any). -/
def splitAtDot : List Char → (List Char × Option (List Char))
  | [] => ([], none)
  | '.' :: rest => ([], some rest)
  | c :: rest =>
    let t := splitAtDot rest
    (c :: t.1, t.2)

/-- Split a float literal at the first `'e'`/`'E'` (if any). -/
def splitAtExp : List Char → (List Char × Option (List Char))
  | [] => ([], none)
  | c :: rest =>
    if c = 'e' ∨ c = 'E' then ([], some rest)
    else
      let t := splitAtExp rest
      (c :: t.1, t.2)

/-- Parse a signed decimal exponent (digits only, optional sign). -/
def parseExp (cs : List Char) : Option Int :=
  let signed : Bool × List Char :=
    match cs with
    | '-' :: rest => (true, rest)
    | '+' :: rest => (false, rest)
    | rest => (false, rest)
  (parseFracDigitsAux signed.2 0 0 false).map fun p =>
    if signed.1 then -(p.1 : Int) else (p.1 : Int)

/-- Parse the unsigned mantissa/exponent part of a Python float literal. -/
def pyFloatBody (cs : List Char) : Option ℚ :=
  let (mant, exp?) := splitAtExp cs
  let (ipart, fpart?) := splitAtDot mant
  let intDigits : Option (Nat × Nat) :=
    if ipart = [] then some (0, 0) else parseFracDigitsAux ipart 0 0 false
  let fracDigits : Option (Nat × Nat) :=
    match fpart? with
    | none => some (0, 0)
    | some [] => some (0, 0)
    | some f => parseFracDigitsAux f 0 0 false
  match intDigits, fracDigits with
  | some (iv, ic), some (fv, fc) =>
    -- at least one digit must appear in the mantissa
    if ic = 0 ∧ fc = 0 then none
    else
      let base : ℚ := (iv : ℚ) + (fv : ℚ) / ((10 : ℚ) ^ fc)
      match exp? with
      | none => some base
      | some e =>
        match parseExp e with
        | none => none
        | some x => some (base * (10 : ℚ) ^ x)
  | _, _ => none

/-- Python `float(s)`: strip whitespace, optional sign, then `inf`,
`infinity`, `nan` (case-insensitive) or a decimal literal; `none` models the
`ValueError` on unparseable input. -/
def pyFloat (s : String) : Option PyFloat :=
  let cs := (pyStrip s.data).map Char.toLower
  let signed : Bool × List Char :=
    match cs with
    | '-' :: rest => (true, rest)
    | '+' :: rest => (false, rest)
    | rest => (false, rest)
  let neg := signed.1
  let body := signed.2
  if body = ['i', 'n', 'f'] ∨ body = ['i', 'n', 'f', 'i', 'n', 'i', 't', 'y'] then
    some (.inf neg)
  else if body = ['n', 'a', 'n'] then
    some .nan
  else
    (pyFloatBody body).map fun q => .finite (if neg then -q else q)

/-- The closed set of tag kinds (`TAG_CLASS_MAP` keys). -/
inductive Kind where
  | byte | short | int | long | float | double | string
  | byteArray | intArray | longArray | compound | list
deriving DecidableEq, Repr

/-- A tag value.  `compound` keeps its entries as an insertion-ordered
association list (Python dict semantics); `list` records its element kind,
`none` standing for nbtlib's untyped `End` sentinel subtype. -/
inductive TagVal where
  | byte (v : Int)
  | short (v : Int)
  | int (v : Int)
  | long (v : Int)
  | float (v : PyFloat)
  | double (v : PyFloat)
  | string (s : String)
  | byteArray (vs : List Int)
  | intArray (vs : List Int)
  | longArray (vs : List Int)
  | compound (entries : List (String × TagVal))
  | list (subtype : Option Kind) (elems : List TagVal)

/-- The kind of a tag value. -/
def kindOf : TagVal → Kind
  | .byte _ => .byte
  | .short _ => .short
  | .int _ => .int
  | .long _ => .long
  | .float _ => .float
  | .double _ => .double
  | .string _ => .string
  | .byteArray _ => .byteArray
  | .intArray _ => .intArray
  | .longArray _ => .longArray
  | .compound _ => .compound
  | .list _ _ => .list

/-- The error taxonomy surfaced by the editor's validation paths. -/
inductive Err where
  | invalidInteger   -- "Enter a valid integer." / "Lists must contain integers…"
  | invalidFloat     -- "Enter a valid floating point value."
  | outOfRange       -- "Values must be ≥/≤ …" and nbtlib's OutOfRange
  | emptyName        -- "Compound entries must have a name."
  | duplicateName    -- "The name '…' already exists…"
  | typeMismatch     -- list subtype restriction on insert
  | slotConflict     -- "Slot … already contains an item."
  | nothingToDelete  -- "There is no item to delete in this slot."
  | notFound         -- missing key (Python KeyError; unreachable in the GUI)
deriving DecidableEq, Repr

/-- Whether `v` falls below the optional lower bound. -/
def belowMin (minimum : Option Int) (v : Int) : Bool :=
  match minimum with
  | some m => v < m
  | none => false

/-- Whether `v` exceeds the optional upper bound. -/
def aboveMax (maximum : Option Int) (v : Int) : Bool :=
  match maximum with
  | some m => m < v
  | none => false

/-- nbtlib `Byte(v)`: validates the signed 8-bit range, raising `OutOfRange`
(a `ValueError`) outside it. -/
def mkByte (v : Int) : Except Err Int :=
  if -128 ≤ v ∧ v < 128 then .ok v else .error .outOfRange

/-- nbtlib `Short(v)`: signed 16-bit range check. -/
def mkShort (v : Int) : Except Err Int :=
  if -32768 ≤ v ∧ v < 32768 then .ok v else .error .outOfRange

/-- nbtlib `Int(v)`: signed 32-bit range check. -/
def mkIntTag (v : Int) : Except Err Int :=
  if -2147483648 ≤ v ∧ v < 2147483648 then .ok v else .error .outOfRange

/-- nbtlib `Long(v)`: signed 64-bit range check. -/
def mkLongTag (v : Int) : Except Err Int :=
  if -9223372036854775808 ≤ v ∧ v < 9223372036854775808 then .ok v
  else .error .outOfRange

/-- The element loop of `_parse_int_list`: parse each comma segment with
`int(part, 0)` and check it against the optional bounds; the first failure
raises. -/
def parseParts (minimum maximum : Option Int) : List (List Char) → Except Err (List Int)
  | [] => .ok []
  | p :: ps =>
    match pyIntCore p with
    | none => .error .invalidInteger
    | some v =>
      if belowMin minimum v then .error .outOfRange
      else if aboveMax maximum v then .error .outOfRange
      else (parseParts minimum maximum ps).map (v :: ·)

/-- `NBTEditorApp._parse_int_list(text, minimum=…, maximum=…)`: empty/blank
text yields `[]`; otherwise strip whitespace then the surrounding `[`/`]`
characters, split on commas, drop segments that are blank after stripping,
and parse each remaining segment with `int(part, 0)`; values outside the
optional bounds raise the out-of-range `ValueError`. -/
def parse_int_list (minimum maximum : Option Int) (text : String) : Except Err (List Int) :=
  if pyStrip text.data = [] then .ok []
  else
    let stripped := stripBrackets (pyStrip text.data)
    let parts := ((splitCommas stripped).map pyStrip).filter (· ≠ [])
    parseParts minimum maximum parts

/-- The array-coercion splitter as the *spec sentence* describes it, for
refinement comparison only ("split text on commas after stripping one
optional pair of surrounding brackets and surrounding whitespace"):
identical to `parse_int_list` except that exactly one matched pair of
surrounding brackets is removed, where the code strips every leading and
trailing `[`/`]` character. -/
def parse_int_list_spec (minimum maximum : Option Int) (text : String) : Except Err (List Int) :=
  if pyStrip text.data = [] then .ok []
  else
    let t := pyStrip text.data
    let stripped :=
      if t.head? = some '[' ∧ t.getLast? = some ']' then (t.drop 1).dropLast else t
    let parts := ((splitCommas stripped).map pyStrip).filter (· ≠ [])
    parseParts minimum maximum parts

/-- `NBTEditorApp._create_tag_from_input(type_name, value)`: construct a tag
of the given kind from its textual input.  Scalar integer kinds parse with
`int(value, 0)` and then construct the nbtlib tag; both a parse failure and
the constructor's `OutOfRange` are `ValueError`s caught and re-raised as
"Enter a valid integer" (`invalidInteger`).  Array kinds go through
`parse_int_list`, `ByteArray` with bounds −128/127. -/
def create_tag_from_input (kind : Kind) (value : String) : Except Err TagVal :=
  match kind with
  | .compound => .ok (.compound [])
  | .list => .ok (.list none [])
  | .string => .ok (.string value)
  | .byte =>
    match pyInt value with
    | none => .error .invalidInteger
    | some n =>
      match mkByte n with
      | .error _ => .error .invalidInteger
      | .ok v => .ok (.byte v)
  | .short =>
    match pyInt value with
    | none => .error .invalidInteger
    | some n =>
      match mkShort n with
      | .error _ => .error .invalidInteger
      | .ok v => .ok (.short v)
  | .int =>
    match pyInt value with
    | none => .error .invalidInteger
    | some n =>
      match mkIntTag n with
      | .error _ => .error .invalidInteger
      | .ok v => .ok (.int v)
  | .long =>
    match pyInt value with
    | none => .error .invalidInteger
    | some n =>
      match mkLongTag n with
      | .error _ => .error .invalidInteger
      | .ok v => .ok (.long v)
  | .float =>
    match pyFloat value with
    | none => .error .invalidFloat
    | some f => .ok (.float f)
  | .double =>
    match pyFloat value with
    | none => .error .invalidFloat
    | some f => .ok (.double f)
  | .byteArray => (parse_int_list (some (-128)) (some 127) value).map (.byteArray ·)
  | .intArray => (parse_int_list none none value).map (.intArray ·)
  | .longArray => (parse_int_list none none value).map (.longArray ·)

/-! ## Compound (Python dict) operations

A compound's entries form an insertion-ordered association list; on a
well-formed compound the keys are pairwise distinct (`DictWF`), matching
Python dict semantics. -/

/-- The entries of a compound: insertion-ordered key/value pairs. -/
abbrev Dict := List (String × TagVal)

/-- Python `key in d`. -/
def dictContains (d : Dict) (k : String) : Bool :=
  d.any (·.1 = k)

/-- Python `d.get(key)` / successful `d[key]`: value of the first entry with
the given key. -/
def dictGet (d : Dict) (k : String) : Option TagVal :=
  (d.find? (·.1 = k)).map (·.2)

/-- Python `d.pop(key)`'s effect on the dict: remove the entry with the
given key (keys are unique on well-formed dicts). -/
def dictPop (d : Dict) (k : String) : Dict :=
  d.filter (¬ ·.1 = k)

/-- Python `d[key] = v`: replace the value in place when the key is present
(keeping its insertion position), otherwise append the new entry at the end. -/
def dictSet (d : Dict) (k : String) (v : TagVal) : Dict :=
  if dictContains d k then
    d.map fun p => if p.1 = k then (k, v) else p
  else d ++ [(k, v)]

/-- Keys of a dict are pairwise distinct (always true of a Python dict). -/
def DictWF (d : Dict) : Prop :=
  (d.map Prod.fst).Nodup

/-! ## `apply_changes`: rename + replace-value on a selected compound entry

`NBTEditorApp.apply_changes` for a tag selected inside a `Compound` parent:
first the rename phase (blank-name check, duplicate-name check, then
`parent[new_name] = parent.pop(key)`), then — unless the selected tag is a
container, whose editor is in "message" mode — the value text is coerced
with `_create_tag_from_input` and on success stored with
`parent[key] = new_tag`.  The GUI surfaces errors with a message box and
returns, so the result pairs the optional error with the parent's state at
the moment of the return on that path. -/

/-- Result of a mutation attempt: the error surfaced (if any) and the state
of the mutated container when the operation returned. -/
structure ApplyResult where
  err : Option Err
  parent : Dict

/-- Container kinds use the "message" editor mode: `apply_changes` returns
right after the rename phase for them. -/
def kindIsContainer (kind : Kind) : Bool :=
  kind = .compound ∨ kind = .list

/-- `NBTEditorApp.apply_changes` for an entry `key` of a compound `parent`,
where the name field holds `newNameRaw`, the selected tag has kind `kind`
and the value editor holds `text`.  Note that the rename is applied *before*
the value text is coerced, so a coercion failure returns with the rename
already in effect. -/
def apply_changes (parent : Dict) (key : String) (newNameRaw : String)
    (kind : Kind) (text : String) : ApplyResult :=
  let n := pyStripS newNameRaw
  if n = "" then ⟨some .emptyName, parent⟩
  else if n ≠ key ∧ dictContains parent n then ⟨some .duplicateName, parent⟩
  else
    let renamed : Except Err (Dict × String) :=
      if n = key then .ok (parent, key)
      else
        match dictGet parent key with
        | none => .error .notFound  -- KeyError; the GUI always selects a present key
        | some v => .ok (dictSet (dictPop parent key) n v, n)
    match renamed with
    | .error e => ⟨some e, parent⟩
    | .ok (parent₂, key₂) =>
      if kindIsContainer kind then ⟨none, parent₂⟩
      else
        match create_tag_from_input kind text with
        | .error e => ⟨some e, parent₂⟩
        | .ok newTag => ⟨none, dictSet parent₂ key₂ newTag⟩

/-- `NBTEditorApp.apply_changes` for a tag selected inside a `List` parent:
there is no rename phase (the name entry is disabled for list elements), so
a failed coercion leaves the list untouched and success replaces the
element at the selected index. -/
def apply_changes_list (elems : List TagVal) (idx : Nat) (kind : Kind)
    (text : String) : Option Err × List TagVal :=
  if kindIsContainer kind then (none, elems)
  else
    match create_tag_from_input kind text with
    | .error e => (some e, elems)
    | .ok newTag => (none, elems.set idx newTag)

/-! ## `add_child` on a `List` tag

`NBTEditorApp.add_child` for a `List` tag: when the list's subtype is the
untyped `End` sentinel the dialog offers every kind, and a successful
insertion first promotes the list in place to `NbtList[kind]` (copying the
— necessarily zero — existing elements) and then appends; when the subtype
is already resolved the dialog pins the type choice to the subtype
(`allow_type_selection=False`), so an input of any other kind is rejected —
the `typeMismatch` error below models that restriction — and the element is
appended only after its value text coerces successfully. -/

/-- A `List` tag: its element kind (`none` = nbtlib's untyped `End`
sentinel) and its elements. -/
structure ListVal where
  subtype : Option Kind
  elems : List TagVal

/-- Result of an insertion attempt on a `List` tag. -/
structure AddResult where
  err : Option Err
  list : ListVal

/-- `add_child` on a `List` tag with a dialog result of the given kind and
value text. -/
def add_child_list (l : ListVal) (kind : Kind) (text : String) : AddResult :=
  match l.subtype with
  | some st =>
    if kind = st then
      match create_tag_from_input kind text with
      | .error e => ⟨some e, l⟩
      | .ok t => ⟨none, ⟨some st, l.elems ++ [t]⟩⟩
    else ⟨some .typeMismatch, l⟩
  | none =>
    match create_tag_from_input kind text with
    | .error e => ⟨some e, l⟩
    | .ok t => ⟨none, ⟨some kind, l.elems ++ [t]⟩⟩

/-- The `List` invariant: an untyped list is empty, and every element of a
typed list has the list's subtype. -/
def ListWF (l : ListVal) : Prop :=
  match l.subtype with
  | none => l.elems = []
  | some st => ∀ e ∈ l.elems, kindOf e = st

/-! ## Inventory projection and slot editing

The inventory view operates on a flat list of `Compound` entries (the
`"Inventory"`/`"EnderItems"` list).  Entries are embedded as `Dict`s.
`int(item.get("Slot", Byte(0)))` reads an entry's slot: a missing `Slot`
tag defaults to `0`; on the integer tag kinds `int()` returns the value.
(`int()` of a float or numeric-string tag also succeeds in Python; entries
of that shape are outside the data-model convention — spec §3 makes `Slot`
an integer tag — and the theorems below hypothesise slot-readable entries
where it matters.) -/

/-- `int(item.get("Slot", Byte(0)))`: `some 0` when `Slot` is absent, the
integer value for integer tags, `none` for tags `int()` is not modelled on. -/
def slotRead (e : Dict) : Option Int :=
  match dictGet e "Slot" with
  | none => some 0
  | some (.byte v) => some v
  | some (.short v) => some v
  | some (.int v) => some v
  | some (.long v) => some v
  | some _ => none

/-- The sort key used by `_edit_inventory_item`'s final
`inventory_tag.sort(key=lambda entry: int(entry.get("Slot", Byte(0))))`. -/
def sortKey (e : Dict) : Int :=
  (slotRead e).getD 0

/-- Ascending slot order on entries (the relation the backing list is
sorted by). -/
def slotLE (a b : Dict) : Prop :=
  sortKey a ≤ sortKey b

instance : DecidableRel slotLE := fun a b =>
  inferInstanceAs (Decidable (sortKey a ≤ sortKey b))

instance : IsTotal Dict slotLE := ⟨fun a b => le_total (sortKey a) (sortKey b)⟩

instance : IsTrans Dict slotLE := ⟨fun _ _ _ h h' => le_trans h h'⟩

/-- Python's `list.sort` is a stable ascending sort; `List.insertionSort`
with `slotLE` is the standard stable functional model of it. -/
def sortInv (inv : List Dict) : List Dict :=
  List.insertionSort slotLE inv

/-- `NBTEditorApp._find_inventory_item(inventory_tag, slot, exclude=…)`,
with the Python `item is exclude` identity test rendered as a positional
index to exclude: index of the first non-excluded entry whose slot reads as
`slot`. -/
def find_inventory_item : List Dict → Nat → Option Nat → Int → Option Nat
  | [], _, _, _ => none
  | e :: rest, i, exclude, slot =>
    if exclude = some i then find_inventory_item rest (i + 1) exclude slot
    else if slotRead e = some slot then some i
    else find_inventory_item rest (i + 1) exclude slot

/-- Replace the entry at index `i` (used for the in-place field updates of
`item["Slot"] = …` etc. on the entry found by `_find_inventory_item`). -/
def setEntry : List Dict → Nat → Dict → List Dict
  | [], _, _ => []
  | _ :: rest, 0, e => e :: rest
  | x :: rest, i + 1, e => x :: setEntry rest i e

/-- Entry at index `i` (indices produced by `find_inventory_item` are in
bounds; out-of-bounds reads return the empty dict and never occur). -/
def getEntry (inv : List Dict) (i : Nat) : Dict :=
  (inv.get? i).getD []

/-- State after an inventory edit: the surfaced error (if any; an nbtlib
`OutOfRange` escapes uncaught but equally aborts the handler) and the
backing list at that moment. -/
structure InvResult where
  err : Option Err
  inv : List Dict

/-- The `"delete"` branch of `NBTEditorApp._edit_inventory_item`: deleting
an empty slot reports "There is no item to delete"; otherwise the entry
found at the clicked slot is removed from the backing list. -/
def edit_inventory_delete (inv : List Dict) (clicked : Int) : InvResult :=
  match find_inventory_item inv 0 none clicked with
  | none => ⟨some .nothingToDelete, inv⟩
  | some i => ⟨none, inv.eraseIdx i⟩

/-- The `"save"` branch of `NBTEditorApp._edit_inventory_item` for a click
on `clicked` with dialog result `Save(newSlot, newId, newCount)` (the
dialog has already validated that the slot text parses, the id is
non-blank, and `0 ≤ newCount ≤ 64`).  A conflict — some *other* entry
already at `newSlot` — aborts before any mutation; otherwise the existing
entry's `Slot`/`id`/`Count` fields are updated in place (or a fresh
three-field compound is appended), `Byte(…)` construction failing with
`OutOfRange` exactly where the uncaught nbtlib exception would abort the
Python handler; finally the backing list is re-sorted by slot. -/
def edit_inventory_save (inv : List Dict) (clicked : Int) (newSlot : Int)
    (newId : String) (newCount : Int) : InvResult :=
  let item := find_inventory_item inv 0 none clicked
  match find_inventory_item inv 0 item newSlot with
  | some _ => ⟨some .slotConflict, inv⟩
  | none =>
    match item with
    | none =>
      -- new_item built locally: a failed Byte() discards it, list untouched
      match mkByte newSlot with
      | .error e => ⟨some e, inv⟩
      | .ok bs =>
        match mkByte newCount with
        | .error e => ⟨some e, inv⟩
        | .ok bc =>
          let entry : Dict :=
            [("Slot", .byte bs), ("id", .string newId), ("Count", .byte bc)]
          ⟨none, sortInv (inv ++ [entry])⟩
    | some i =>
      -- item["Slot"] = Byte(new_slot) evaluates Byte() first: failure
      -- aborts before *any* field is written
      match mkByte newSlot with
      | .error e => ⟨some e, inv⟩
      | .ok bs =>
        let e₁ := dictSet (getEntry inv i) "Slot" (.byte bs)
        let e₂ := dictSet e₁ "id" (.string newId)
        match mkByte newCount with
        | .error e => ⟨some e, setEntry inv i e₂⟩
        | .ok bc =>
          let e₃ := dictSet e₂ "Count" (.byte bc)
          ⟨none, sortInv (setEntry inv i e₃)⟩

/-- One step of `_populate_inventory_frame`'s projection loop:
`items_by_slot[slot_value] = item` with Python dict semantics (overwrite in
place when the slot is present, else append). -/
def slotInsert (acc : List (Int × Dict)) (e : Dict) : List (Int × Dict) :=
  let k := sortKey e
  if acc.any (·.1 = k) then acc.map fun p => if p.1 = k then (k, e) else p
  else acc ++ [(k, e)]

/-- `NBTEditorApp._populate_inventory_frame`'s projection: the
`items_by_slot` dict, built by inserting each entry at its slot value in
iteration order, so that of two entries sharing a slot the later one wins. -/
def items_by_slot (entries : List Dict) : List (Int × Dict) :=
  entries.foldl slotInsert []

/-- `items_by_slot.get(slot)`: the projected entry at a slot. -/
def slotLookup (d : List (Int × Dict)) (k : Int) : Option Dict :=
  (d.find? (·.1 = k)).map (·.2)

/-- `ItemEditorDialog._on_save` validation: the slot text must parse with
`int(s, 0)`, the id must be non-blank after stripping, and the count must
parse non-negative with `0 ≤ count ≤ 64`; only then is
`Save(slot, id, count)` handed to `_edit_inventory_item`. -/
def item_editor_on_save (slotText idText countText : String) :
    Option (Int × String × Int) :=
  match pyInt (pyStripS slotText) with
  | none => none
  | some slot =>
    let id := pyStripS idText
    if id = "" then none
    else
      match pyInt (pyStripS countText) with
      | none => none
      | some c => if 0 ≤ c ∧ c ≤ 64 then some (slot, id, c) else none


/-! ## Helper lemmas -/

theorem belowMin_some (m v : Int) : belowMin (some m) v = decide (v < m) := rfl

theorem belowMin_none (v : Int) : belowMin none v = false := rfl

theorem aboveMax_some (m v : Int) : aboveMax (some m) v = decide (m < v) := rfl

theorem aboveMax_none (v : Int) : aboveMax none v = false := rfl

/-- On a successful parse with both bounds set, every returned element lies
within the bounds. -/
theorem parseParts_ok_bounds (lo hi : Int) (ps : List (List Char)) :
    ∀ (xs : List Int), parseParts (some lo) (some hi) ps = .ok xs →
      ∀ x ∈ xs, lo ≤ x ∧ x ≤ hi := by
  induction ps with
  | nil =>
    intro xs h x hx
    simp only [parseParts] at h
    cases h
    simp at hx
  | cons p ps ih =>
    intro xs h x hx
    simp only [parseParts] at h
    cases hp : pyIntCore p with
    | none => simp only [hp] at h; cases h
    | some v =>
      simp only [hp, belowMin_some, aboveMax_some] at h
      by_cases hb : v < lo
      · simp [hb] at h
      · by_cases ha : hi < v
        · simp [hb, ha] at h
        · simp only [hb, ha, decide_False, Bool.false_eq_true, if_false] at h
          cases hrec : parseParts (some lo) (some hi) ps with
          | error e => simp only [hrec, Except.map] at h; cases h
          | ok ys =>
            simp only [hrec, Except.map, Except.ok.injEq] at h
            subst h
            rcases List.mem_cons.mp hx with rfl | hx'
            · exact ⟨le_of_not_lt hb, le_of_not_lt ha⟩
            · exact ih ys hrec x hx'

/-- With no bounds set, the only error the part loop can raise is
`invalidInteger`. -/
theorem parseParts_none_error (ps : List (List Char)) :
    ∀ (e : Err), parseParts none none ps = .error e → e = .invalidInteger := by
  induction ps with
  | nil => intro e h; simp only [parseParts] at h; cases h
  | cons p ps ih =>
    intro e h
    simp only [parseParts] at h
    cases hp : pyIntCore p with
    | none =>
      simp only [hp, Except.error.injEq] at h
      exact h.symm
    | some v =>
      simp only [hp, belowMin_none, aboveMax_none, Bool.false_eq_true, if_false] at h
      cases hrec : parseParts none none ps with
      | error e₂ =>
        simp only [hrec, Except.map, Except.error.injEq] at h
        exact h ▸ ih e₂ hrec
      | ok ys => simp only [hrec, Except.map] at h; cases h

/-- A tag built by `_create_tag_from_input` has the requested kind. -/
theorem kindOf_create_tag_from_input (kind : Kind) (text : String) (t : TagVal) :
    create_tag_from_input kind text = .ok t → kindOf t = kind := by
  intro h
  cases kind <;> simp only [create_tag_from_input] at h
  case compound => cases h; rfl
  case list => cases h; rfl
  case string => cases h; rfl
  case float =>
    cases hf : pyFloat text with
    | none => simp only [hf] at h; cases h
    | some f => simp only [hf] at h; cases h; rfl
  case double =>
    cases hf : pyFloat text with
    | none => simp only [hf] at h; cases h
    | some f => simp only [hf] at h; cases h; rfl
  case byte =>
    cases hi : pyInt text with
    | none => simp only [hi] at h; cases h
    | some n =>
      simp only [hi] at h
      cases hm : mkByte n with
      | error e => simp only [hm] at h; cases h
      | ok v => simp only [hm] at h; cases h; rfl
  case short =>
    cases hi : pyInt text with
    | none => simp only [hi] at h; cases h
    | some n =>
      simp only [hi] at h
      cases hm : mkShort n with
      | error e => simp only [hm] at h; cases h
      | ok v => simp only [hm] at h; cases h; rfl
  case int =>
    cases hi : pyInt text with
    | none => simp only [hi] at h; cases h
    | some n =>
      simp only [hi] at h
      cases hm : mkIntTag n with
      | error e => simp only [hm] at h; cases h
      | ok v => simp only [hm] at h; cases h; rfl
  case long =>
    cases hi : pyInt text with
    | none => simp only [hi] at h; cases h
    | some n =>
      simp only [hi] at h
      cases hm : mkLongTag n with
      | error e => simp only [hm] at h; cases h
      | ok v => simp only [hm] at h; cases h; rfl
  case byteArray =>
    cases hl : parse_int_list (some (-128)) (some 127) text with
    | error e => simp only [hl, Except.map] at h; cases h
    | ok vs => simp only [hl, Except.map] at h; cases h; rfl
  case intArray =>
    cases hl : parse_int_list none none text with
    | error e => simp only [hl, Except.map] at h; cases h
    | ok vs => simp only [hl, Except.map] at h; cases h; rfl
  case longArray =>
    cases hl : parse_int_list none none text with
    | error e => simp only [hl, Except.map] at h; cases h
    | ok vs => simp only [hl, Except.map] at h; cases h; rfl

/-! ## C10 -/

/-- C10: array-kind coercion silently skips comma-separated segments that
are blank after trimming: `"1,,2"`, `"1, ,2"` and `"1,2,"` all coerce to
the two-element array `[1, 2]` (for `IntArray`, `ByteArray` and
`LongArray` alike) instead of failing with `InvalidInteger`. -/
theorem c10_array_coercion_skips_blank_segments :
    create_tag_from_input .intArray "1,,2" = .ok (.intArray [1, 2]) ∧
    create_tag_from_input .intArray "1, ,2" = .ok (.intArray [1, 2]) ∧
    create_tag_from_input .intArray "1,2," = .ok (.intArray [1, 2]) ∧
    create_tag_from_input .byteArray "1,,2" = .ok (.byteArray [1, 2]) ∧
    create_tag_from_input .byteArray "1, ,2" = .ok (.byteArray [1, 2]) ∧
    create_tag_from_input .byteArray "1,2," = .ok (.byteArray [1, 2]) ∧
    create_tag_from_input .longArray "1,,2" = .ok (.longArray [1, 2]) ∧
    create_tag_from_input .longArray "1, ,2" = .ok (.longArray [1, 2]) ∧
    create_tag_from_input .longArray "1,2," = .ok (.longArray [1, 2]) :=
  ⟨rfl, rfl, rfl, rfl, rfl, rfl, rfl, rfl, rfl⟩

/-! ## C5 -/

/-- C5 counterexample: the code strips *every* leading/trailing bracket
character (Python `strip("[]")`), not one optional pair as claimed: on
`"[[1]]"` the claimed behaviour leaves the unparseable segment `"[1"`/
`"[1]"` and fails with `InvalidInteger`, while the code succeeds with
`[1]`. -/
theorem c5_counterexample :
    parse_int_list none none "[[1]]" = .ok [1] ∧
    parse_int_list_spec none none "[[1]]" = .error .invalidInteger ∧
    create_tag_from_input .intArray "[[1]]" = .ok (.intArray [1]) :=
  ⟨rfl, rfl, rfl⟩

/-- C5 (amended): array coercion splits on commas after stripping *all*
surrounding bracket characters and whitespace; empty text yields an empty
array; elements are parsed with `int(part, 0)`, `InvalidInteger` being the
only parse error when no bounds apply; `ByteArray` bounds every element to
[-128,127] and fails with `OutOfRange` otherwise — in particular
`coerce(ByteArray, "200")` fails with `OutOfRange` while
`coerce(IntArray, "200")` yields `[200]`. -/
theorem c5_amended_array_coercion :
    (create_tag_from_input .byteArray "200" = .error .outOfRange) ∧
    (create_tag_from_input .intArray "200" = .ok (.intArray [200])) ∧
    (∀ (mn mx : Option Int) (text : String), pyStrip text.data = [] →
        parse_int_list mn mx text = .ok []) ∧
    (∀ (text : String) (xs : List Int),
        parse_int_list (some (-128)) (some 127) text = .ok xs →
        ∀ x ∈ xs, -128 ≤ x ∧ x ≤ 127) ∧
    (∀ (text : String) (e : Err),
        parse_int_list none none text = .error e → e = .invalidInteger) := by
  refine ⟨rfl, rfl, ?_, ?_, ?_⟩
  · intro mn mx text h
    simp only [parse_int_list, if_pos h]
  · intro text xs h
    by_cases hb : pyStrip text.data = []
    · simp only [parse_int_list, if_pos hb] at h
      cases h
      simp
    · simp only [parse_int_list, if_neg hb] at h
      exact parseParts_ok_bounds (-128) 127 _ xs h
  · intro text e h
    by_cases hb : pyStrip text.data = []
    · simp only [parse_int_list, if_pos hb] at h; cases h
    · simp only [parse_int_list, if_neg hb] at h
      exact parseParts_none_error _ e h

/-- C5 amended-theorem witness: the bound and error-form conjuncts applied
at concrete inputs. -/
theorem c5_amended_array_coercion_witness :
    (parse_int_list (some (-128)) (some 127) "1,2" = .ok [1, 2] ∧
      -128 ≤ (1 : Int) ∧ (1 : Int) ≤ 127) ∧
    parse_int_list (some 0) (some 5) "   " = .ok [] :=
  ⟨⟨rfl,
    c5_amended_array_coercion.2.2.2.1 "1,2" [1, 2] rfl 1 (by decide)⟩,
    c5_amended_array_coercion.2.2.1 (some 0) (some 5) "   " (by decide)⟩

/-! ## Dict lemmas -/

/-- A key absent from a dict is absent from the dict with another key
popped. -/
theorem dictContains_dictPop_of_not (d : Dict) (k n : String)
    (h : dictContains d n = false) : dictContains (dictPop d k) n = false := by
  induction d with
  | nil => rfl
  | cons p rest ih =>
    simp only [dictContains, List.any_cons, Bool.or_eq_false_iff] at h
    simp only [dictPop, List.filter_cons]
    by_cases hk : decide (¬p.1 = k) = true
    · simp only [hk, if_true]
      simp only [dictContains, List.any_cons, Bool.or_eq_false_iff]
      exact ⟨h.1, ih h.2⟩
    · simp only [hk, if_false]
      exact ih h.2

/-- Setting an absent key appends the entry at the end. -/
theorem dictSet_absent (d : Dict) (k : String) (v : TagVal)
    (h : dictContains d k = false) : dictSet d k v = d ++ [(k, v)] := by
  simp only [dictSet, h]
  simp

/-- `find?` for key `k'` ignores the in-place replacement of the entries
whose key is `k ≠ k'`. -/
theorem find?_map_set {α β : Type} [DecidableEq α]
    (d : List (α × β)) (k k' : α) (v : β) (h : ¬k = k') :
    List.find? (fun x => decide (x.1 = k'))
        (d.map fun p => if p.1 = k then (k, v) else p)
      = List.find? (fun x => decide (x.1 = k')) d := by
  induction d with
  | nil => rfl
  | cons p rest ih =>
    simp only [List.map_cons]
    by_cases hp : p.1 = k
    · rw [if_pos hp]
      have h1 : ¬p.1 = k' := fun hh => h (hp ▸ hh)
      rw [List.find?_cons_of_neg _ (by simpa using h),
        List.find?_cons_of_neg _ (by simpa using h1)]
      exact ih
    · rw [if_neg hp]
      by_cases hk' : p.1 = k'
      · rw [List.find?_cons_of_pos _ (by simpa using hk'),
          List.find?_cons_of_pos _ (by simpa using hk')]
      · rw [List.find?_cons_of_neg _ (by simpa using hk'),
          List.find?_cons_of_neg _ (by simpa using hk')]
        exact ih

/-- `find?` for key `k` finds the in-place replacement when `k` occurs. -/
theorem find?_map_set_self {α β : Type} [DecidableEq α]
    (d : List (α × β)) (k : α) (v : β)
    (hc : d.any (fun x => decide (x.1 = k)) = true) :
    List.find? (fun x => decide (x.1 = k))
        (d.map fun p => if p.1 = k then (k, v) else p)
      = some (k, v) := by
  induction d with
  | nil => simp at hc
  | cons p rest ih =>
    simp only [List.map_cons]
    by_cases hp : p.1 = k
    · rw [if_pos hp, List.find?_cons_of_pos _ (by simp)]
    · rw [if_neg hp, List.find?_cons_of_neg _ (by simpa using hp)]
      apply ih
      simp only [List.any_cons] at hc
      rcases Bool.or_eq_true_iff.mp hc with h1 | h2
      · exact absurd (of_decide_eq_true h1) hp
      · exact h2

/-- A key an association list does not contain is not found. -/
theorem find?_eq_none_of_not_contains {α β : Type} [DecidableEq α]
    (d : List (α × β)) (k : α)
    (hf : d.any (fun x => decide (x.1 = k)) = false) :
    List.find? (fun x => decide (x.1 = k)) d = none := by
  rw [List.find?_eq_none]
  intro x hx
  simp only [List.any_eq_false] at hf
  simpa using hf x hx

/-- Reading back the key just set. -/
theorem dictGet_dictSet_same (d : Dict) (k : String) (v : TagVal) :
    dictGet (dictSet d k v) k = some v := by
  by_cases h : dictContains d k = true
  · simp only [dictSet, h, if_true, dictGet]
    rw [find?_map_set_self d k v h]
    rfl
  · have hf : dictContains d k = false := by simpa using h
    rw [dictSet_absent d k v hf]
    simp only [dictGet]
    rw [List.find?_append, find?_eq_none_of_not_contains d k hf]
    simp [List.find?]

/-- Setting one key does not change the value read at another. -/
theorem dictGet_dictSet_other (d : Dict) (k k' : String) (v : TagVal)
    (h : k' ≠ k) : dictGet (dictSet d k v) k' = dictGet d k' := by
  by_cases hc : dictContains d k = true
  · simp only [dictSet, hc, if_true, dictGet]
    rw [find?_map_set d k k' v (fun hh => h hh.symm)]
  · have hf : dictContains d k = false := by simpa using hc
    rw [dictSet_absent d k v hf]
    simp only [dictGet]
    rw [List.find?_append]
    cases hd : List.find? (fun x => decide (x.1 = k')) d with
    | some p => simp
    | none =>
      simp only [Option.none_or]
      have hkk : ¬k = k' := fun hh => h hh.symm
      rw [List.find?_cons_of_neg _ (by simpa using hkk)]
      simp [List.find?]

/-! ## C1 -/

/-- C1 counterexample: on the compound `{a: Int 1}`, an apply that renames
`a → b` and replaces the value with the unparseable text `"not-a-number"`
is rejected with `InvalidInteger` — but the tree is *not* left unchanged:
the rename has already been applied, so the compound is now `{b: Int 1}`. -/
theorem c1_counterexample :
    apply_changes [("a", .int 1)] "a" "b" .int "not-a-number"
      = ⟨some .invalidInteger, [("b", .int 1)]⟩ ∧
    [(("b" : String), TagVal.int 1)] ≠ [(("a" : String), TagVal.int 1)] := by
  refine ⟨rfl, ?_⟩
  intro h
  injection h with h1 _
  injection h1 with hk _
  exact absurd hk (by decide)

/-- C1 (amended): a failed coercion always rejects the value replacement
and reports the error, and the value is never replaced; if the same apply
did not also request a rename the container is left entirely unchanged
(for compound entries, list elements alike) — but if the apply requested a
valid rename of a compound entry, the rename has already been performed
(the entry moved to the end under the new name) when the coercion failure
aborts, so the mutation is not atomic across rename + replace. -/
theorem c1_amended_replace_atomicity :
    (∀ (parent : Dict) (key : String) (kind : Kind) (text : String) (e : Err),
        pyStripS key = key → key ≠ "" →
        kindIsContainer kind = false →
        create_tag_from_input kind text = .error e →
        apply_changes parent key key kind text = ⟨some e, parent⟩) ∧
    (∀ (parent : Dict) (key n : String) (v : TagVal) (kind : Kind)
        (text : String) (e : Err),
        pyStripS n = n → n ≠ "" → n ≠ key →
        dictContains parent n = false →
        dictGet parent key = some v →
        kindIsContainer kind = false →
        create_tag_from_input kind text = .error e →
        apply_changes parent key n kind text
          = ⟨some e, dictSet (dictPop parent key) n v⟩) ∧
    (∀ (elems : List TagVal) (idx : Nat) (kind : Kind) (text : String) (e : Err),
        create_tag_from_input kind text = .error e →
        apply_changes_list elems idx kind text = (some e, elems)) := by
  refine ⟨?_, ?_, ?_⟩
  · intro parent key kind text e hstrip hne hcont hco
    have h2 : ¬(key ≠ key ∧ dictContains parent key = true) := fun hc => hc.1 rfl
    simp [apply_changes, hstrip, hne, h2, hco, hcont]
  · intro parent key n v kind text e hstrip hne hnk hcontn hget hcont hco
    have h2 : ¬(n ≠ key ∧ dictContains parent n = true) := by
      simp [hcontn]
    simp [apply_changes, hstrip, hne, h2, hnk, hcontn, hget, hco, hcont]
  · intro elems idx kind text e hco
    have hk : kindIsContainer kind = false := by
      cases kind <;>
        first
        | rfl
        | (simp only [create_tag_from_input] at hco; cases hco)
    simp [apply_changes_list, hk, hco]

/-- C1 amended-theorem witness: the no-rename conjunct applied at a
concrete compound, and the list conjunct at a concrete list. -/
theorem c1_amended_replace_atomicity_witness :
    apply_changes [("a", TagVal.int 1)] "a" "a" .int "not-a-number"
      = ⟨some .invalidInteger, [("a", TagVal.int 1)]⟩ ∧
    apply_changes_list [TagVal.int 7] 0 .int "oops"
      = (some .invalidInteger, [TagVal.int 7]) :=
  ⟨c1_amended_replace_atomicity.1 [("a", .int 1)] "a" .int "not-a-number"
      .invalidInteger rfl (by decide) rfl rfl,
    c1_amended_replace_atomicity.2.2 [TagVal.int 7] 0 .int "oops"
      .invalidInteger rfl⟩

/-! ## C7 -/

/-- C7: renaming a compound entry to a name already present under a
different key fails with `DuplicateName` and leaves the compound unchanged;
renaming an entry to its own current name is a no-op success; and a
successful rename to a fresh name moves the entry to the end of the
compound's insertion order (`parent[new_name] = parent.pop(key)`).
The rename-only behaviour is isolated on container-kind tags, whose value
editor is in "message" mode so `apply_changes` returns right after the
rename phase. -/
theorem c7_rename_semantics :
    (∀ (parent : Dict) (key n : String) (kind : Kind) (text : String),
        pyStripS n = n → n ≠ "" → n ≠ key →
        dictContains parent n = true →
        apply_changes parent key n kind text = ⟨some .duplicateName, parent⟩) ∧
    (∀ (parent : Dict) (key : String) (kind : Kind) (text : String),
        pyStripS key = key → key ≠ "" →
        kindIsContainer kind = true →
        apply_changes parent key key kind text = ⟨none, parent⟩) ∧
    (∀ (parent : Dict) (key n : String) (v : TagVal) (kind : Kind) (text : String),
        pyStripS n = n → n ≠ "" → n ≠ key →
        dictContains parent n = false →
        dictGet parent key = some v →
        kindIsContainer kind = true →
        apply_changes parent key n kind text
          = ⟨none, dictPop parent key ++ [(n, v)]⟩) := by
  refine ⟨?_, ?_, ?_⟩
  · intro parent key n kind text hstrip hne hnk hdup
    have h2 : (n ≠ key ∧ dictContains parent n = true) := ⟨hnk, hdup⟩
    simp only [apply_changes, hstrip, if_neg hne, if_pos h2]
  · intro parent key kind text hstrip hne hcont
    have h2 : ¬(key ≠ key ∧ dictContains parent key = true) := fun hc => hc.1 rfl
    simp only [apply_changes, hstrip, if_neg hne, if_neg h2, if_pos rfl, hcont,
      if_true]
  · intro parent key n v kind text hstrip hne hnk hcontn hget hcont
    have h2 : (n ≠ key ∧ dictContains parent n = true) = False := by
      simp [hcontn]
    have hpop : dictContains (dictPop parent key) n = false :=
      dictContains_dictPop_of_not parent key n hcontn
    simp only [apply_changes, hstrip, if_neg hne, h2, if_false, if_neg hnk,
      hget, hcont, if_true]
    rw [dictSet_absent _ _ _ hpop]

/-- C7 witness: all three rename behaviours at concrete compounds. -/
theorem c7_rename_semantics_witness :
    apply_changes [("a", TagVal.int 1), ("b", TagVal.int 2)] "a" "b" .compound ""
      = ⟨some .duplicateName, [("a", TagVal.int 1), ("b", TagVal.int 2)]⟩ ∧
    apply_changes [("a", TagVal.compound [])] "a" "a" .compound ""
      = ⟨none, [("a", TagVal.compound [])]⟩ ∧
    apply_changes [("a", TagVal.int 1), ("c", TagVal.int 3)] "a" "zz" .compound ""
      = ⟨none, [("c", TagVal.int 3), ("zz", TagVal.int 1)]⟩ := by
  refine ⟨?_, ?_, ?_⟩
  · exact c7_rename_semantics.1 [("a", .int 1), ("b", .int 2)] "a" "b" .compound ""
      rfl (by decide) (by decide) rfl
  · exact c7_rename_semantics.2.1 [("a", .compound [])] "a" .compound ""
      rfl (by decide) rfl
  · exact c7_rename_semantics.2.2 [("a", .int 1), ("c", .int 3)] "a" "zz" (.int 1)
      .compound "" rfl (by decide) (by decide) rfl rfl rfl

/-! ## C2 -/

/-- C2: inserting the first element into an untyped `List` resolves its
subtype to the element's kind; the subtype of a typed list never changes
under insertion; inserting a different kind into a typed list fails with
`TypeMismatch` and leaves the list unchanged; and every successful insert
preserves the invariant that each element's kind equals the subtype. -/
theorem c2_list_subtype_promotion :
    (∀ (l : ListVal) (kind : Kind) (text : String) (t : TagVal),
        l.subtype = none →
        create_tag_from_input kind text = .ok t →
        add_child_list l kind text = ⟨none, ⟨some kind, l.elems ++ [t]⟩⟩) ∧
    (∀ (l : ListVal) (st kind : Kind) (text : String),
        l.subtype = some st →
        (add_child_list l kind text).list.subtype = some st) ∧
    (∀ (l : ListVal) (st kind : Kind) (text : String),
        l.subtype = some st → kind ≠ st →
        add_child_list l kind text = ⟨some .typeMismatch, l⟩) ∧
    (∀ (l : ListVal) (kind : Kind) (text : String),
        ListWF l →
        (add_child_list l kind text).err = none →
        ListWF (add_child_list l kind text).list) := by
  refine ⟨?_, ?_, ?_, ?_⟩
  · intro l kind text t hsub hco
    simp [add_child_list, hsub, hco]
  · intro l st kind text hsub
    simp only [add_child_list, hsub]
    by_cases hk : kind = st
    · subst hk
      rw [if_pos rfl]
      cases hco : create_tag_from_input kind text <;> simp [hsub]
    · rw [if_neg hk]
      exact hsub
  · intro l st kind text hsub hne
    simp only [add_child_list, hsub]
    rw [if_neg hne]
  · intro l kind text hwf herr
    cases hsub : l.subtype with
    | none =>
      have hel : l.elems = [] := by
        simpa [ListWF, hsub] using hwf
      simp only [add_child_list, hsub] at herr ⊢
      cases hco : create_tag_from_input kind text with
      | error e => rw [hco] at herr; cases herr
      | ok t =>
        simp only [ListWF, hel]
        intro e he
        have het : e = t := by simpa using he
        subst het
        exact kindOf_create_tag_from_input kind text e hco
    | some st =>
      have hall : ∀ e ∈ l.elems, kindOf e = st := by
        simpa [ListWF, hsub] using hwf
      simp only [add_child_list, hsub] at herr ⊢
      by_cases hk : kind = st
      · subst hk
        rw [if_pos rfl] at herr ⊢
        cases hco : create_tag_from_input kind text with
        | error e => rw [hco] at herr; cases herr
        | ok t =>
          simp only [ListWF]
          intro e he
          rcases List.mem_append.mp he with hmem | hmem
          · exact hall e hmem
          · rcases List.mem_singleton.mp hmem with rfl
            exact kindOf_create_tag_from_input kind text e hco
      · rw [if_neg hk] at herr
        cases herr

/-- C2 witness: first insert into an empty untyped list resolves the
subtype, a kind mismatch on the typed list is rejected unchanged, and the
invariant holds of the promoted result. -/
theorem c2_list_subtype_promotion_witness :
    add_child_list ⟨none, []⟩ .int "5" = ⟨none, ⟨some .int, [.int 5]⟩⟩ ∧
    add_child_list ⟨some .int, [.int 5]⟩ .string "x"
      = ⟨some .typeMismatch, ⟨some .int, [.int 5]⟩⟩ ∧
    ListWF (add_child_list ⟨none, []⟩ .int "5").list :=
  ⟨c2_list_subtype_promotion.1 ⟨none, []⟩ .int "5" (.int 5) rfl rfl,
    c2_list_subtype_promotion.2.2.1 ⟨some .int, [.int 5]⟩ .int .string "x" rfl
      (by decide),
    c2_list_subtype_promotion.2.2.2 ⟨none, []⟩ .int "5" (by simp [ListWF]) rfl⟩

/-! ## C6 -/

/-- Looking a slot up after one projection-insert step: the inserted entry
wins at its own slot, everything else is unchanged. -/
theorem slotLookup_slotInsert (acc : List (Int × Dict)) (e : Dict) (s : Int) :
    slotLookup (slotInsert acc e) s
      = if sortKey e = s then some e else slotLookup acc s := by
  by_cases hc : acc.any (fun x => decide (x.1 = sortKey e)) = true
  · simp only [slotInsert, hc, if_true, slotLookup]
    by_cases hk : sortKey e = s
    · subst hk
      rw [find?_map_set_self acc (sortKey e) e hc]
      simp
    · rw [find?_map_set acc (sortKey e) s e hk]
      simp [hk, slotLookup]
  · have hf : acc.any (fun x => decide (x.1 = sortKey e)) = false :=
      Bool.eq_false_iff.mpr hc
    simp only [slotInsert, hf, Bool.false_eq_true, if_false, slotLookup]
    rw [List.find?_append]
    by_cases hk : sortKey e = s
    · subst hk
      rw [find?_eq_none_of_not_contains acc (sortKey e) hf]
      simp [List.find?]
    · cases hd : List.find? (fun x => decide (x.1 = s)) acc with
      | some p => simp [hk, slotLookup, hd]
      | none =>
        simp only [Option.none_or]
        rw [List.find?_cons_of_neg _ (by simpa using hk)]
        simp [List.find?, hk, slotLookup, hd]

/-- The projection maps a slot to the *last* entry (in iteration order)
whose slot reads as that value. -/
theorem items_by_slot_lookup (entries : List Dict) (s : Int) :
    slotLookup (items_by_slot entries) s
      = List.find? (fun e => decide (sortKey e = s)) entries.reverse := by
  induction entries using List.reverseRecOn with
  | nil => rfl
  | append_singleton es e ih =>
    have hfold : items_by_slot (es ++ [e]) = slotInsert (items_by_slot es) e := by
      simp [items_by_slot, List.foldl_append]
    rw [hfold, slotLookup_slotInsert, List.reverse_append]
    simp only [List.reverse_singleton, List.singleton_append]
    by_cases hk : sortKey e = s
    · rw [if_pos hk, List.find?_cons_of_pos _ (by simpa using hk)]
    · rw [if_neg hk, List.find?_cons_of_neg _ (by simpa using hk)]
      exact ih

/-- C6: the inventory projection maps each entry to the integer value of
its `Slot` tag, a missing `Slot` defaulting to `0`; the projected entry at
slot `s` is the last entry in iteration order whose slot reads `s`
(last-write-wins on duplicates), and the projection is total — no error is
raised. -/
theorem c6_projection_last_write_wins :
    (∀ (e : Dict), dictGet e "Slot" = none → slotRead e = some 0) ∧
    (∀ (entries : List Dict) (s : Int),
        slotLookup (items_by_slot entries) s
          = List.find? (fun e => decide (sortKey e = s)) entries.reverse) := by
  constructor
  · intro e h
    simp [slotRead, h]
  · exact items_by_slot_lookup

/-- C6 witness: a `Slot`-less entry projects to slot 0, and of two entries
sharing slot 5 the later one wins. -/
theorem c6_projection_last_write_wins_witness :
    slotRead [("id", TagVal.string "bare")] = some 0 ∧
    slotLookup
        (items_by_slot
          [[("Slot", TagVal.byte 5), ("id", TagVal.string "first")],
            [("Slot", TagVal.byte 5), ("id", TagVal.string "second")]]) 5
      = some [("Slot", TagVal.byte 5), ("id", TagVal.string "second")] := by
  constructor
  · exact c6_projection_last_write_wins.1 [("id", TagVal.string "bare")] rfl
  · rw [c6_projection_last_write_wins.2
      [[("Slot", TagVal.byte 5), ("id", TagVal.string "first")],
        [("Slot", TagVal.byte 5), ("id", TagVal.string "second")]] 5]
    rfl

/-! ## Inventory helper lemmas -/

theorem sortInv_sorted (l : List Dict) : List.Sorted slotLE (sortInv l) :=
  List.sorted_insertionSort slotLE l

theorem sortInv_length (l : List Dict) : (sortInv l).length = l.length :=
  List.length_insertionSort slotLE l

theorem mem_sortInv (a : Dict) (l : List Dict) : a ∈ sortInv l ↔ a ∈ l :=
  (List.perm_insertionSort slotLE l).mem_iff

theorem setEntry_length (l : List Dict) :
    ∀ (i : Nat) (e : Dict), (setEntry l i e).length = l.length := by
  induction l with
  | nil => intro i e; cases i <;> rfl
  | cons a rest ih =>
    intro i e
    cases i with
    | zero => rfl
    | succ j => simp only [setEntry, List.length_cons, ih j e]

theorem mem_setEntry_self (l : List Dict) :
    ∀ (i : Nat) (e : Dict), i < l.length → e ∈ setEntry l i e := by
  induction l with
  | nil => intro i e h; simp at h
  | cons a rest ih =>
    intro i e h
    cases i with
    | zero => simp [setEntry]
    | succ j =>
      simp only [setEntry, List.mem_cons]
      right
      exact ih j e (by simpa using h)

/-- A hit of `_find_inventory_item` lies below the end of the scanned
range. -/
theorem find_inventory_item_lt (l : List Dict) :
    ∀ (i : Nat) (ex : Option Nat) (s : Int) (r : Nat),
      find_inventory_item l i ex s = some r → r < i + l.length := by
  induction l with
  | nil => intro i ex s r h; cases h
  | cons e rest ih =>
    intro i ex s r h
    simp only [find_inventory_item] at h
    by_cases hex : ex = some i
    · rw [if_pos hex] at h
      have := ih (i + 1) ex s r h
      simp only [List.length_cons]
      omega
    · rw [if_neg hex] at h
      by_cases hs : slotRead e = some s
      · rw [if_pos hs] at h
        cases h
        simp only [List.length_cons]
        omega
      · rw [if_neg hs] at h
        have := ih (i + 1) ex s r h
        simp only [List.length_cons]
        omega

/-- A miss of `_find_inventory_item`: every scanned entry is either the
excluded one or does not read the sought slot. -/
theorem find_inventory_item_none (l : List Dict) :
    ∀ (i : Nat) (ex : Option Nat) (s : Int),
      find_inventory_item l i ex s = none →
      ∀ (j : Nat) (e : Dict), l.get? j = some e →
        ex = some (i + j) ∨ slotRead e ≠ some s := by
  induction l with
  | nil => intro i ex s _ j e hj; cases hj
  | cons a rest ih =>
    intro i ex s h j e hj
    simp only [find_inventory_item] at h
    by_cases hex : ex = some i
    · rw [if_pos hex] at h
      cases j with
      | zero =>
        cases hj
        left
        simpa using hex
      | succ j' =>
        rcases ih (i + 1) ex s h j' e (by simpa using hj) with h1 | h2
        · left
          rw [h1]
          congr 1
          omega
        · right; exact h2
    · rw [if_neg hex] at h
      by_cases hs : slotRead a = some s
      · rw [if_pos hs] at h; cases h
      · rw [if_neg hs] at h
        cases j with
        | zero =>
          cases hj
          right
          exact hs
        | succ j' =>
          rcases ih (i + 1) ex s h j' e (by simpa using hj) with h1 | h2
          · left
            rw [h1]
            congr 1
            omega
          · right; exact h2

/-! ## C4 -/

/-- C4: after every successful inventory Save the backing list is sorted
ascending by slot number; in particular saving slot 3 into an empty list
and then slot 1 yields the order `[slot 1 entry, slot 3 entry]`. -/
theorem c4_save_resorts_by_slot :
    (∀ (inv : List Dict) (clicked newSlot : Int) (newId : String)
        (newCount : Int),
        (edit_inventory_save inv clicked newSlot newId newCount).err = none →
        List.Sorted slotLE
          (edit_inventory_save inv clicked newSlot newId newCount).inv) ∧
    (edit_inventory_save [] 3 3 "a" 1).inv
      = [[("Slot", .byte 3), ("id", .string "a"), ("Count", .byte 1)]] ∧
    (edit_inventory_save (edit_inventory_save [] 3 3 "a" 1).inv 1 1 "b" 1).inv
      = [[("Slot", .byte 1), ("id", .string "b"), ("Count", .byte 1)],
          [("Slot", .byte 3), ("id", .string "a"), ("Count", .byte 1)]] := by
  refine ⟨?_, rfl, rfl⟩
  intro inv clicked ns id c herr
  simp only [edit_inventory_save] at herr ⊢
  cases hitem : find_inventory_item inv 0 none clicked with
  | none =>
    rw [hitem] at herr
    cases hconf : find_inventory_item inv 0 none ns with
    | some r => rw [hconf] at herr; simp at herr
    | none =>
      rw [hconf] at herr
      cases hb : mkByte ns with
      | error e => rw [hb] at herr; simp at herr
      | ok bs =>
        rw [hb] at herr
        cases hb2 : mkByte c with
        | error e => rw [hb2] at herr; simp at herr
        | ok bc => exact sortInv_sorted _
  | some i =>
    rw [hitem] at herr
    cases hconf : find_inventory_item inv 0 (some i) ns with
    | some r => rw [hconf] at herr; simp at herr
    | none =>
      rw [hconf] at herr
      cases hb : mkByte ns with
      | error e => rw [hb] at herr; simp at herr
      | ok bs =>
        rw [hb] at herr
        cases hb2 : mkByte c with
        | error e => rw [hb2] at herr; simp at herr
        | ok bc => exact sortInv_sorted _

/-- C4 witness: the sortedness conjunct applied to the two concrete saves
of the example. -/
theorem c4_save_resorts_by_slot_witness :
    List.Sorted slotLE (edit_inventory_save [] 3 3 "a" 1).inv ∧
    List.Sorted slotLE
      (edit_inventory_save (edit_inventory_save [] 3 3 "a" 1).inv 1 1 "b" 1).inv :=
  ⟨c4_save_resorts_by_slot.1 [] 3 3 "a" 1 rfl,
    c4_save_resorts_by_slot.1 (edit_inventory_save [] 3 3 "a" 1).inv 1 1 "b" 1 rfl⟩

theorem mkByte_ok (v : Int) (h1 : -128 ≤ v) (h2 : v < 128) :
    mkByte v = .ok v := by
  simp [mkByte, h1, h2]

theorem mkByte_err (v : Int) (h : ¬(-128 ≤ v ∧ v < 128)) :
    mkByte v = .error .outOfRange := by
  simp [mkByte, h]

/-! ## C3 -/

/-- C3 counterexample: clicking the occupied slot 5 and saving
`Save(slot=150, id="b", count=2)` has no conflict (no other entry at 150),
so the claim requires an in-place update of the entry's fields — but
`Byte(150)` raises `OutOfRange` and the save aborts with no field updated
(the entry still carries `id "a"`). -/
theorem c3_counterexample :
    find_inventory_item
        [[("Slot", TagVal.byte 5), ("id", TagVal.string "a"),
          ("Count", TagVal.byte 1)]] 0 (some 0) 150 = none ∧
    edit_inventory_save
        [[("Slot", TagVal.byte 5), ("id", TagVal.string "a"),
          ("Count", TagVal.byte 1)]] 5 150 "b" 2
      = ⟨some .outOfRange,
          [[("Slot", TagVal.byte 5), ("id", TagVal.string "a"),
            ("Count", TagVal.byte 1)]]⟩ :=
  ⟨rfl, rfl⟩

/-- C3 (amended): if the destination slot is occupied by a different entry
than the one being edited, Save fails with `SlotConflict` and the backing
list is unchanged; otherwise, provided the new slot lies within the Byte
range [-128,127] (as the count, being 0–64, always does), a Save on an
existing entry updates that entry's fields in place and creates no
duplicate, so the backing list's length is unchanged — while a new slot
outside [-128,127] makes the Byte constructor fail with `OutOfRange`
instead of updating the entry. -/
theorem c3_amended_save_conflict_or_in_place :
    (∀ (inv : List Dict) (clicked newSlot : Int) (newId : String)
        (newCount : Int),
        (∃ (j : Nat) (e : Dict), inv.get? j = some e ∧
            find_inventory_item inv 0 none clicked ≠ some j ∧
            slotRead e = some newSlot) →
        edit_inventory_save inv clicked newSlot newId newCount
          = ⟨some .slotConflict, inv⟩) ∧
    (∀ (inv : List Dict) (clicked newSlot : Int) (newId : String)
        (newCount : Int) (i : Nat),
        find_inventory_item inv 0 none clicked = some i →
        find_inventory_item inv 0 (some i) newSlot = none →
        -128 ≤ newSlot → newSlot < 128 → -128 ≤ newCount → newCount < 128 →
        (edit_inventory_save inv clicked newSlot newId newCount).err = none ∧
        (edit_inventory_save inv clicked newSlot newId newCount).inv.length
          = inv.length) := by
  constructor
  · intro inv clicked ns id c hocc
    simp only [edit_inventory_save]
    cases hconf : find_inventory_item inv 0
        (find_inventory_item inv 0 none clicked) ns with
    | some r => rfl
    | none =>
      exfalso
      obtain ⟨j, e, hj, hex, hs⟩ := hocc
      rcases find_inventory_item_none inv 0
          (find_inventory_item inv 0 none clicked) ns hconf j e hj with h1 | h2
      · exact hex (by simpa using h1)
      · exact h2 hs
  · intro inv clicked ns id c i hitem hconf h1 h2 h3 h4
    have hi : i < inv.length := by
      have := find_inventory_item_lt inv 0 none clicked i hitem
      simpa using this
    simp only [edit_inventory_save]
    rw [hitem, hconf]
    simp only [mkByte_ok ns h1 h2, mkByte_ok c h3 h4]
    exact ⟨by trivial, by rw [sortInv_length, setEntry_length]⟩

/-- C3 witness: a conflicting save is rejected unchanged, and an in-place
save on the single slot-5 entry succeeds with the list still of length 1. -/
theorem c3_amended_save_conflict_or_in_place_witness :
    edit_inventory_save
        [[("Slot", TagVal.byte 5), ("id", TagVal.string "a"),
          ("Count", TagVal.byte 1)],
          [("Slot", TagVal.byte 7), ("id", TagVal.string "g"),
            ("Count", TagVal.byte 1)]] 7 5 "c" 1
      = ⟨some .slotConflict,
          [[("Slot", TagVal.byte 5), ("id", TagVal.string "a"),
            ("Count", TagVal.byte 1)],
            [("Slot", TagVal.byte 7), ("id", TagVal.string "g"),
              ("Count", TagVal.byte 1)]]⟩ ∧
    (edit_inventory_save
        [[("Slot", TagVal.byte 5), ("id", TagVal.string "a"),
          ("Count", TagVal.byte 1)]] 5 5 "b" 2).err = none ∧
    (edit_inventory_save
        [[("Slot", TagVal.byte 5), ("id", TagVal.string "a"),
          ("Count", TagVal.byte 1)]] 5 5 "b" 2).inv.length = 1 := by
  refine ⟨?_, ?_⟩
  · exact c3_amended_save_conflict_or_in_place.1 _ 7 5 "c" 1
      ⟨0, [("Slot", TagVal.byte 5), ("id", TagVal.string "a"),
          ("Count", TagVal.byte 1)], rfl, by decide, rfl⟩
  · exact c3_amended_save_conflict_or_in_place.2 _ 5 5 "b" 2 0 rfl rfl
      (by decide) (by decide) (by decide) (by decide)

/-! ## C9 -/

/-- C9 counterexample: `Save(slot=150, id="x", count=1)` passes the
dialog's validation (150 is a parseable integer, the id is non-blank and
the count is in 0–64), yet on an empty inventory nothing is persisted:
nbtlib's `Byte(150)` raises `OutOfRange`, so no entry with
`Slot = Byte(150)` ever exists. -/
theorem c9_counterexample :
    item_editor_on_save "150" "x" "1" = some (150, "x", 1) ∧
    edit_inventory_save [] 150 150 "x" 1 = ⟨some .outOfRange, []⟩ :=
  ⟨rfl, rfl⟩

/-- C9 (amended): every *successful* Save stores the entry's Slot and
Count as 8-bit signed `Byte` tags — which forces the slot into
[-128,127] — while a Save whose (dialog-accepted) slot lies outside
[-128,127], such as the UI-offered special slot 150, fails with nbtlib's
`OutOfRange` from the `Byte` constructor and stores nothing. -/
theorem c9_amended_save_stores_byte_tags :
    (∀ (inv : List Dict) (clicked newSlot : Int) (newId : String)
        (newCount : Int),
        (edit_inventory_save inv clicked newSlot newId newCount).err = none →
        -128 ≤ newSlot ∧ newSlot < 128 ∧
        ∃ e ∈ (edit_inventory_save inv clicked newSlot newId newCount).inv,
          dictGet e "Slot" = some (.byte newSlot) ∧
          dictGet e "id" = some (.string newId) ∧
          dictGet e "Count" = some (.byte newCount)) ∧
    (∀ (inv : List Dict) (clicked newSlot : Int) (newId : String)
        (newCount : Int),
        ¬(-128 ≤ newSlot ∧ newSlot < 128) →
        find_inventory_item inv 0 (find_inventory_item inv 0 none clicked)
            newSlot = none →
        edit_inventory_save inv clicked newSlot newId newCount
          = ⟨some .outOfRange, inv⟩) := by
  constructor
  · intro inv clicked ns id c herr
    simp only [edit_inventory_save] at herr ⊢
    cases hitem : find_inventory_item inv 0 none clicked with
    | none =>
      rw [hitem] at herr
      cases hconf : find_inventory_item inv 0 none ns with
      | some r => rw [hconf] at herr; simp at herr
      | none =>
        rw [hconf] at herr
        by_cases hr : -128 ≤ ns ∧ ns < 128
        · refine ⟨hr.1, hr.2, ?_⟩
          by_cases hc2 : -128 ≤ c ∧ c < 128
          · simp only [mkByte_ok ns hr.1 hr.2, mkByte_ok c hc2.1 hc2.2]
            refine ⟨[("Slot", .byte ns), ("id", .string id), ("Count", .byte c)],
              ?_, rfl, rfl, rfl⟩
            rw [mem_sortInv]
            simp
          · simp only [mkByte_ok ns hr.1 hr.2, mkByte_err c hc2] at herr
            simp at herr
        · simp only [mkByte_err ns hr] at herr
          simp at herr
    | some i =>
      rw [hitem] at herr
      cases hconf : find_inventory_item inv 0 (some i) ns with
      | some r => rw [hconf] at herr; simp at herr
      | none =>
        rw [hconf] at herr
        by_cases hr : -128 ≤ ns ∧ ns < 128
        · refine ⟨hr.1, hr.2, ?_⟩
          by_cases hc2 : -128 ≤ c ∧ c < 128
          · simp only [mkByte_ok ns hr.1 hr.2, mkByte_ok c hc2.1 hc2.2]
            have hi : i < inv.length := by
              have := find_inventory_item_lt inv 0 none clicked i hitem
              simpa using this
            refine ⟨dictSet (dictSet (dictSet (getEntry inv i) "Slot" (.byte ns))
                "id" (.string id)) "Count" (.byte c), ?_, ?_, ?_, ?_⟩
            · rw [mem_sortInv]
              exact mem_setEntry_self inv i _ hi
            · rw [dictGet_dictSet_other _ _ _ _ (by decide),
                dictGet_dictSet_other _ _ _ _ (by decide), dictGet_dictSet_same]
            · rw [dictGet_dictSet_other _ _ _ _ (by decide), dictGet_dictSet_same]
            · rw [dictGet_dictSet_same]
          · simp only [mkByte_ok ns hr.1 hr.2, mkByte_err c hc2] at herr
            simp at herr
        · simp only [mkByte_err ns hr] at herr
          simp at herr
  · intro inv clicked ns id c hr hconf
    simp only [edit_inventory_save]
    rw [hconf]
    cases hitem : find_inventory_item inv 0 none clicked with
    | none => simp only [mkByte_err ns hr]
    | some i => simp only [mkByte_err ns hr]

/-- C9 witness: a successful save at slot 5 stores `Byte` fields, and a
save at slot 150 fails with `OutOfRange` leaving the list empty. -/
theorem c9_amended_save_stores_byte_tags_witness :
    (-128 ≤ (5 : Int) ∧ (5 : Int) < 128 ∧
      ∃ e ∈ (edit_inventory_save [] 5 5 "x" 1).inv,
        dictGet e "Slot" = some (.byte 5) ∧
        dictGet e "id" = some (.string "x") ∧
        dictGet e "Count" = some (.byte 1)) ∧
    edit_inventory_save [] 200 200 "x" 1 = ⟨some .outOfRange, []⟩ :=
  ⟨c9_amended_save_stores_byte_tags.1 [] 5 5 "x" 1 rfl,
    c9_amended_save_stores_byte_tags.2 [] 200 200 "x" 1 (by decide) rfl⟩

end NBTEdit
